import Mathlib

/-!
Verification of the `QuantMatrix` component (`src/quantmatrix.cc`) of the
fastTextAnnotation repository, against its natural-language specification.

The component is shallowly embedded: `real` values become `ℚ`, buffers become
lists, C++ streams become lists of stream items, and fallible operations
return `Except Err`.  The external collaborators (`ProductQuantizer`,
`DenseMatrix`, `Vector`) are not part of the given sources; they are modelled
from the spec, as noted on each such definition.
-/

namespace QuantVerify

/-- Failure kinds of the embedded operations.  `invalidArgument` models a
failed C `assert` precondition check, `operationNotPermitted` models the
`throw std::runtime_error("Operation not permitted on quantized matrices.")`
calls, `undefinedAccess` models undefined behaviour (out-of-range buffer
access, null dereference, non-positive subvector size), and
`malformedStream` models a failed stream read during `load`. -/
inductive Err where
  | invalidArgument
  | operationNotPermitted
  | undefinedAccess
  | malformedStream
deriving DecidableEq, Repr

/-- Modelled from the spec: the external `ProductQuantizer` (the spec's
VectorQuantizer, not under `src/`).  Per the spec it exposes code
computation, centroid reconstruction, an approximate dot product and an
approximate row reconstruction, all opaque to this component; each instance
carries these operations as abstract functions. -/
structure ProductQuantizer where
  compute_codes : List ℚ → Nat → List Nat
  get_centroids : Nat → Nat → List ℚ
  approxDot : List ℚ → List Nat → Int → ℚ
  reconRow : List Nat → Int → List ℚ

/-- Modelled from the spec: `ProductQuantizer::mulcode` is not under `src/`;
per the spec (4.2) it returns the quantizer's approximate dot product
between the query and row `i`'s codes, scaled by the given factor. -/
def ProductQuantizer.mulcode (p : ProductQuantizer) (vec : List ℚ)
    (codes : List Nat) (i : Int) (alpha : ℚ) : ℚ :=
  alpha * p.approxDot vec codes i

/-- Modelled from the spec: `ProductQuantizer::addcode` is not under `src/`;
per the spec (4.3) it adds `alpha` times the reconstructed (approximate) row
`i` into the accumulator element-wise. -/
def ProductQuantizer.addcode (p : ProductQuantizer) (x : List ℚ)
    (codes : List Nat) (i : Int) (alpha : ℚ) : List ℚ :=
  List.zipWith (fun xv rv => xv + alpha * rv) x (p.reconRow codes i)

/-- Modelled from the spec: the dense matrix container (not under `src/`),
a 2-D array of reals stored row-major as a flat list. -/
structure DenseMatrix where
  m : Nat
  n : Nat
  data : List ℚ

/-- The environment supplies the behaviour of the external collaborators
that the component invokes but does not define: the square root used by
Euclidean norms, construction of a fresh `ProductQuantizer(dim, dsub)`, and
the in-place `train(count, data)` step (old quantizer state in, trained
state out). -/
structure Env where
  sqrt : ℚ → ℚ
  freshPQ : Nat → Int → ProductQuantizer
  trainPQ : ProductQuantizer → Nat → List ℚ → ProductQuantizer

/-- Modelled from the spec: `DenseMatrix::l2NormRow` (not under `src/`).
Mirrors the loop nest of the source: for each row index, the square root of
the running sum of squares of that row's entries, read by flat row-major
index. -/
def DenseMatrix.l2NormRow (env : Env) (mat : DenseMatrix) : List ℚ :=
  (List.range mat.m).map (fun i =>
    env.sqrt ((List.range mat.n).foldl
      (fun acc j => acc + mat.data.getD (i * mat.n + j) 0 * mat.data.getD (i * mat.n + j) 0) 0))

/-- Modelled from the spec: `DenseMatrix::divideRow` (not under `src/`).
Mirrors the loop nest of the source: for each row index, every entry of that
row divided by that row's denominator. -/
def DenseMatrix.divideRow (mat : DenseMatrix) (denoms : List ℚ) : DenseMatrix :=
  { mat with data := ((List.range mat.m).map (fun i =>
      ((mat.data.drop (i * mat.n)).take mat.n).map (fun v => v / denoms.getD i 0))).flatten }

/-- The quantized matrix state: `qnorm_`, `m_`, `n_`, `codesize_`, `codes_`,
`pq_`, `norm_codes_`, `npq_` of the source.  The two owned quantizers are
options, `none` modelling a null `unique_ptr`. -/
structure QuantMatrix where
  qnorm : Bool
  m : Nat
  n : Nat
  codesize : Nat
  codes : List Nat
  pq : Option ProductQuantizer
  norm_codes : List Nat
  npq : Option ProductQuantizer

/-- The quantizing constructor `QuantMatrix(DenseMatrix&&, int32_t, bool)`
together with the `quantize` / `quantizeNorm` steps it performs eagerly.
The source performs no validation of `dsub`; a non-positive `dsub` makes the
size expression divide by zero (or resize by a negative value), which is
undefined behaviour, embedded as `undefinedAccess`.  `compute_codes` writes
into a buffer of fixed size, embedded with `List.takeD` (truncate or
zero-pad to the buffer length). -/
def mkQuantMatrix (env : Env) (mat : DenseMatrix) (dsub : Int) (qnorm : Bool) :
    Except Err QuantMatrix :=
  if dsub ≤ 0 then .error .undefinedAccess
  else
    let d := dsub.toNat
    let cs := mat.m * ((mat.n + d - 1) / d)
    let pq0 := env.freshPQ mat.n dsub
    if qnorm then
      let norms := mat.l2NormRow env
      let mat2 := mat.divideRow norms
      let npqT := env.trainPQ (env.freshPQ 1 1) mat.m norms
      let nc := List.takeD mat.m (npqT.compute_codes norms mat.m) 0
      let pqT := env.trainPQ pq0 mat.m mat2.data
      .ok { qnorm := true, m := mat.m, n := mat.n, codesize := cs,
            codes := List.takeD cs (pqT.compute_codes mat2.data mat.m) 0,
            pq := some pqT, norm_codes := nc, npq := some npqT }
    else
      let pqT := env.trainPQ pq0 mat.m mat.data
      .ok { qnorm := false, m := mat.m, n := mat.n, codesize := cs,
            codes := List.takeD cs (pqT.compute_codes mat.data mat.m) 0,
            pq := some pqT, norm_codes := [], npq := none }

/-- The shared norm-resolution step of `dotRow` and both `addRowToVector`
overloads: `real norm = 1; if (qnorm_) norm = npq_->get_centroids(0,
norm_codes_[i])[0];`.  Reading `norm_codes_[i]` out of range, or through a
null `npq_`, is undefined behaviour. -/
def QuantMatrix.normOf (x : QuantMatrix) (i : Int) : Except Err ℚ :=
  if x.qnorm then
    match x.npq with
    | some np =>
        if 0 ≤ i ∧ i.toNat < x.norm_codes.length then
          .ok ((np.get_centroids 0 (x.norm_codes.getD i.toNat 0)).headD 0)
        else .error .undefinedAccess
    | none => .error .undefinedAccess
  else .ok 1

/-- `QuantMatrix::dotRow`.  The three `assert`s of the source guard the row
index and the query length; their failure is embedded as
`invalidArgument`. -/
def QuantMatrix.dotRow (x : QuantMatrix) (vec : List ℚ) (i : Int) : Except Err ℚ :=
  if ¬ 0 ≤ i then .error .invalidArgument
  else if ¬ i < (x.m : Int) then .error .invalidArgument
  else if ¬ vec.length = x.n then .error .invalidArgument
  else do
    let norm ← x.normOf i
    match x.pq with
    | some p => .ok (p.mulcode vec x.codes i norm)
    | none => .error .undefinedAccess

/-- `QuantMatrix::addRowToVector(Vector&, int32_t, real)` (the explicit
scale overload).  Note the source performs no bounds or length checks
here. -/
def QuantMatrix.addRowToVector (x : QuantMatrix) (acc : List ℚ) (i : Int) (a : ℚ) :
    Except Err (List ℚ) := do
  let norm ← x.normOf i
  match x.pq with
  | some p => .ok (p.addcode acc x.codes i (a * norm))
  | none => .error .undefinedAccess

/-- `QuantMatrix::addRowToVector(Vector&, int32_t)` (the overload without a
scale argument).  Note the source performs no bounds or length checks
here. -/
def QuantMatrix.addRowToVector1 (x : QuantMatrix) (acc : List ℚ) (i : Int) :
    Except Err (List ℚ) := do
  let norm ← x.normOf i
  match x.pq with
  | some p => .ok (p.addcode acc x.codes i norm)
  | none => .error .undefinedAccess

/-- `QuantMatrix::addVectorToRow`: unconditionally throws. -/
def QuantMatrix.addVectorToRow (_x : QuantMatrix) (_v : List ℚ) (_i : Int) (_a : ℚ) :
    Except Err QuantMatrix :=
  .error .operationNotPermitted

/-- One item of the binary stream.  Raw single bytes (`bool` flag, `uint8_t`
codes) are `b8`; a 64-bit integer written whole is `i64`; a quantizer's
opaque self-contained serialized blob is `pqBlob`. -/
inductive StreamItem where
  | b8 (v : Nat)
  | i64 (v : Int)
  | pqBlob (p : ProductQuantizer)

/-- `QuantMatrix::dump`: unconditionally throws. -/
def QuantMatrix.dump (_x : QuantMatrix) : Except Err (List StreamItem) :=
  .error .operationNotPermitted

/-- `QuantMatrix::save`.  Writing `codesize_` bytes from a shorter `codes_`
buffer (or `m_` bytes from a shorter `norm_codes_`), or saving through a
null quantizer pointer, is undefined behaviour. -/
def QuantMatrix.save (x : QuantMatrix) : Except Err (List StreamItem) :=
  match x.pq with
  | none => .error .undefinedAccess
  | some p =>
    if x.codesize ≤ x.codes.length then
      let base := StreamItem.b8 (if x.qnorm then 1 else 0) ::
        StreamItem.i64 (x.m : Int) :: StreamItem.i64 (x.n : Int) ::
        StreamItem.i64 (x.codesize : Int) ::
        ((x.codes.take x.codesize).map StreamItem.b8 ++ [StreamItem.pqBlob p])
      if x.qnorm then
        match x.npq with
        | none => .error .undefinedAccess
        | some np =>
          if x.m ≤ x.norm_codes.length then
            .ok (base ++ (x.norm_codes.take x.m).map StreamItem.b8 ++ [StreamItem.pqBlob np])
          else .error .undefinedAccess
      else .ok base
    else .error .undefinedAccess

/-- Reads one raw byte from the stream. -/
def readB8 : List StreamItem → Except Err (Nat × List StreamItem)
  | .b8 v :: rest => .ok (v, rest)
  | _ => .error .malformedStream

/-- Reads one 64-bit integer from the stream. -/
def readI64 : List StreamItem → Except Err (Int × List StreamItem)
  | .i64 v :: rest => .ok (v, rest)
  | _ => .error .malformedStream

/-- Reads one quantizer blob from the stream. -/
def readBlob : List StreamItem → Except Err (ProductQuantizer × List StreamItem)
  | .pqBlob p :: rest => .ok (p, rest)
  | _ => .error .malformedStream

/-- Reads `k` raw bytes from the stream. -/
def readBytes : Nat → List StreamItem → Except Err (List Nat × List StreamItem)
  | 0, s => .ok ([], s)
  | k + 1, .b8 v :: rest => do
      let (vs, s2) ← readBytes k rest
      .ok (v :: vs, s2)
  | _ + 1, _ => .error .malformedStream

/-- `QuantMatrix::load`: reads the fields written by `save` in the same
order, returning the loaded instance and the unconsumed remainder of the
stream. -/
def QuantMatrix.load (s : List StreamItem) : Except Err (QuantMatrix × List StreamItem) := do
  let (q, s) ← readB8 s
  let (mv, s) ← readI64 s
  let (nv, s) ← readI64 s
  let (cs, s) ← readI64 s
  let (codes, s) ← readBytes cs.toNat s
  let (p, s) ← readBlob s
  if q != 0 then
    let (nc, s) ← readBytes mv.toNat s
    let (np, s) ← readBlob s
    .ok ({ qnorm := true, m := mv.toNat, n := nv.toNat, codesize := cs.toNat,
           codes := codes, pq := some p, norm_codes := nc, npq := some np }, s)
  else
    .ok ({ qnorm := false, m := mv.toNat, n := nv.toNat, codesize := cs.toNat,
           codes := codes, pq := some p, norm_codes := [], npq := none }, s)

/-! Concrete sample data used by the evaluation witnesses. -/

/-- A concrete quantizer for the evaluation examples: it encodes nothing, its
scalar centroids all equal `2`, its approximate dot product is the constant
`5`, and it reconstructs every row as `[1, 1]`. -/
def constPQ : ProductQuantizer :=
  { compute_codes := fun _ _ => [], get_centroids := fun _ _ => [2],
    approxDot := fun _ _ _ => 5, reconRow := fun _ _ => [1, 1] }

/-- A concrete environment: identity square root, fresh quantizers are
`constPQ`, and training leaves a quantizer unchanged. -/
def env0 : Env :=
  { sqrt := id, freshPQ := fun _ _ => constPQ, trainPQ := fun p _ _ => p }

/-- A concrete 2-by-2 dense matrix whose rows are unit vectors. -/
def mat0 : DenseMatrix := { m := 2, n := 2, data := [1, 0, 0, 1] }

/-- The instance the quantizing constructor builds from `mat0` with norm
quantization enabled (see `mk_env0_true`). -/
def xN : QuantMatrix :=
  { qnorm := true, m := 2, n := 2, codesize := 2, codes := [0, 0],
    pq := some constPQ, norm_codes := [0, 0], npq := some constPQ }

/-- The instance the quantizing constructor builds from `mat0` with norm
quantization disabled (see `mk_env0_false`). -/
def xF : QuantMatrix :=
  { qnorm := false, m := 2, n := 2, codesize := 2, codes := [0, 0],
    pq := some constPQ, norm_codes := [], npq := none }

/-- Sample construction with norm quantization. -/
theorem mk_env0_true : mkQuantMatrix env0 mat0 2 true = .ok xN := rfl

/-- Sample construction without norm quantization. -/
theorem mk_env0_false : mkQuantMatrix env0 mat0 2 false = .ok xF := rfl

/-- The norm-resolution step either yields a value or fails with the
undefined-access error; it never fails with any other error kind. -/
theorem normOf_cases (x : QuantMatrix) (i : Int) :
    (∃ v, x.normOf i = .ok v) ∨ x.normOf i = .error .undefinedAccess := by
  unfold QuantMatrix.normOf
  cases hq : x.qnorm
  · exact Or.inl ⟨1, rfl⟩
  · cases hnp : x.npq with
    | none => exact Or.inr rfl
    | some np =>
      by_cases hi : 0 ≤ i ∧ i.toNat < x.norm_codes.length
      · exact Or.inl ⟨(np.get_centroids 0 (x.norm_codes.getD i.toNat 0)).headD 0,
          by simp [hi]⟩
      · exact Or.inr (by simp [hi])

/-- C1: for every in-range row index and query of the right length, `dotRow`
returns the main quantizer's approximate dot product between the query and
row `i`'s codes scaled by `norm`, where `norm = 1` without norm quantization
and otherwise `norm` is the scalar centroid the norm quantizer reconstructs
for `normCodes[i]`. -/
theorem dotRow_scaled_by_norm (x : QuantMatrix) (p : ProductQuantizer)
    (vec : List ℚ) (i : Int)
    (hp : x.pq = some p) (h0 : 0 ≤ i) (hm : i < (x.m : Int)) (hv : vec.length = x.n) :
    (x.qnorm = false → x.dotRow vec i = .ok (1 * p.approxDot vec x.codes i)) ∧
    (∀ np, x.qnorm = true → x.npq = some np → i.toNat < x.norm_codes.length →
      x.dotRow vec i =
        .ok (((np.get_centroids 0 (x.norm_codes.getD i.toNat 0)).headD 0) *
          p.approxDot vec x.codes i)) := by
  constructor
  · intro hq
    simp [QuantMatrix.dotRow, QuantMatrix.normOf, hq, h0, hm, hv, hp,
      ProductQuantizer.mulcode, bind, Except.bind]
  · intro np hq hnp hlen
    simp [QuantMatrix.dotRow, QuantMatrix.normOf, hq, hnp, h0, hm, hv, hp, hlen,
      ProductQuantizer.mulcode, bind, Except.bind]

/-- Witness for C1 on the sample instance: the norm centroid is `2`, the
approximate dot product is `5`, and `dotRow` returns their product. -/
theorem dotRow_scaled_by_norm_witness :
    xN.dotRow [1, 1] 0 =
      .ok (((constPQ.get_centroids 0 (xN.norm_codes.getD (Int.toNat 0) 0)).headD 0) *
        constPQ.approxDot [1, 1] xN.codes 0) :=
  (dotRow_scaled_by_norm xN constPQ [1, 1] 0 rfl (by norm_num)
    (by norm_num [xN]) (by norm_num [xN])).2 constPQ rfl rfl (by norm_num [xN])

/-- C8: the mutate-in-place operation and the dump-to-dense operation refuse
unconditionally with the operation-not-permitted error, on every instance and
argument, and return no new state (so every field is left unchanged). -/
theorem disallowed_ops_refuse (x : QuantMatrix) (v : List ℚ) (i : Int) (a : ℚ) :
    x.addVectorToRow v i a = .error .operationNotPermitted ∧
    x.dump = .error .operationNotPermitted :=
  ⟨rfl, rfl⟩

/-- C10: the one-argument accumulate form leaves the accumulator exactly as
the two-argument form with scale `1` does — the implicit default of the
explicit scale argument is `1`, with the reconstructed norm factor applied
exactly once in both forms. -/
theorem addRowToVector1_eq_scale_one (x : QuantMatrix) (acc : List ℚ) (i : Int) :
    x.addRowToVector1 acc i = x.addRowToVector acc i 1 := by
  simp [QuantMatrix.addRowToVector, QuantMatrix.addRowToVector1, one_mul]

/-- C9 (amended): the one-argument accumulate form behaves as the
two-argument form with scale `1` (not with scale equal to the reconstructed
norm), and the two-argument form adds `scale * norm` times the reconstructed
(approximate) row `i` into the accumulator element-wise, where `norm` is
resolved exactly as in `dotRow`. -/
theorem addRowToVector_semantics (x : QuantMatrix) (p : ProductQuantizer)
    (acc : List ℚ) (i : Int) (a nv : ℚ)
    (hp : x.pq = some p) (hn : x.normOf i = .ok nv) :
    x.addRowToVector1 acc i = x.addRowToVector acc i 1 ∧
    x.addRowToVector acc i a =
      .ok (List.zipWith (fun xv rv => xv + a * nv * rv) acc (p.reconRow x.codes i)) := by
  constructor
  · simp [QuantMatrix.addRowToVector, QuantMatrix.addRowToVector1, one_mul]
  · simp [QuantMatrix.addRowToVector, hn, hp, ProductQuantizer.addcode, bind, Except.bind,
      mul_assoc]

/-- Witness for C9's amended statement on the sample instance. -/
theorem addRowToVector_semantics_witness :
    xN.addRowToVector1 [0, 0] 0 = xN.addRowToVector [0, 0] 0 1 ∧
    xN.addRowToVector [0, 0] 0 3 =
      .ok (List.zipWith (fun xv rv => xv + 3 * 2 * rv) [0, 0] (constPQ.reconRow xN.codes 0)) :=
  addRowToVector_semantics xN constPQ [0, 0] 0 3 2 rfl (by norm_num [xN, constPQ, QuantMatrix.normOf])

/-- Counterexample to C9 as stated: on the sample instance the reconstructed
norm is `2`, the one-argument form adds `2 ·` row, while the two-argument
form with scale equal to that norm adds `4 ·` row, so the two calls leave the
accumulator in different states. -/
theorem addRowToVector_default_counterexample :
    xN.normOf 0 = .ok 2 ∧
    xN.addRowToVector1 [0, 0] 0 = .ok [2, 2] ∧
    xN.addRowToVector [0, 0] 0 2 = .ok [4, 4] ∧
    xN.addRowToVector1 [0, 0] 0 ≠ xN.addRowToVector [0, 0] 0 2 := by
  have e1 : xN.addRowToVector1 [0, 0] 0 = .ok [2, 2] := by
    simp [xN, constPQ, QuantMatrix.addRowToVector1, QuantMatrix.normOf,
      ProductQuantizer.addcode, bind, Except.bind]
  have e2 : xN.addRowToVector [0, 0] 0 2 = .ok [4, 4] := by
    simp [xN, constPQ, QuantMatrix.addRowToVector, QuantMatrix.normOf,
      ProductQuantizer.addcode, bind, Except.bind]
    norm_num
  refine ⟨by simp [xN, constPQ, QuantMatrix.normOf], e1, e2, ?_⟩
  rw [e1, e2]
  intro h
  have h2 := List.head_eq_of_cons_eq (Except.ok.inj h)
  norm_num at h2

/-- C7 (amended): `dotRow` checks its preconditions (the source's `assert`s)
and fails when the row index is out of range or the query length differs
from the column count; but neither `addRowToVector` overload performs any
such validation (they never produce the invalid-argument failure), and
construction performs no parameter validation either (it never produces the
invalid-argument failure, a non-positive subvector size being undefined
behaviour instead). -/
theorem precondition_checks (x : QuantMatrix) (vec acc : List ℚ) (i : Int) (a : ℚ) :
    (¬ (0 ≤ i ∧ i < (x.m : Int) ∧ vec.length = x.n) →
      x.dotRow vec i = .error .invalidArgument) ∧
    x.addRowToVector acc i a ≠ .error .invalidArgument ∧
    x.addRowToVector1 acc i ≠ .error .invalidArgument ∧
    (∀ env mat dsub qnorm, mkQuantMatrix env mat dsub qnorm ≠ .error .invalidArgument) := by
  refine ⟨?_, ?_, ?_, ?_⟩
  · intro h
    unfold QuantMatrix.dotRow
    split_ifs with h1 h2 h3 <;>
      first
      | rfl
      | exact absurd ⟨h1, h2, h3⟩ h
  · rcases normOf_cases x i with ⟨v, hv⟩ | hv <;>
      cases hpq : x.pq <;>
        simp [QuantMatrix.addRowToVector, hv, hpq, bind, Except.bind]
  · rcases normOf_cases x i with ⟨v, hv⟩ | hv <;>
      cases hpq : x.pq <;>
        simp [QuantMatrix.addRowToVector1, hv, hpq, bind, Except.bind]
  · intro env mat dsub qnorm
    unfold mkQuantMatrix
    split_ifs <;> simp

/-- Witness for C7's amended statement: a query of length `colCount + 1`
makes `dotRow` fail, while `addRowToVector` at row index `rowCount` does not
produce the invalid-argument failure. -/
theorem precondition_checks_witness :
    (¬ ((0 : Int) ≤ 2 ∧ (2 : Int) < (xN.m : Int) ∧ [1, 1, 1].length = xN.n) →
      xN.dotRow [1, 1, 1] 2 = .error .invalidArgument) ∧
    xN.addRowToVector [5, 5] 2 1 ≠ .error .invalidArgument ∧
    xN.addRowToVector1 [5, 5] 2 ≠ .error .invalidArgument ∧
    (∀ env mat dsub qnorm, mkQuantMatrix env mat dsub qnorm ≠ .error .invalidArgument) :=
  precondition_checks xN [1, 1, 1] [5, 5] 2 1

/-- Counterexample to C7 as stated: on a constructed instance,
`addRowToVector` called with row index `i = rowCount` (out of range) does
not fail at all — the source performs no bounds check there — so it does not
fail with the invalid-argument error. -/
theorem bounds_check_counterexample :
    mkQuantMatrix env0 mat0 2 false = .ok xF ∧
    (2 : Int) = (xF.m : Int) ∧
    xF.addRowToVector [5, 5] 2 1 = .ok [6, 6] := by
  refine ⟨rfl, by norm_num [xF], ?_⟩
  simp [xF, constPQ, QuantMatrix.addRowToVector, QuantMatrix.normOf,
    ProductQuantizer.addcode, bind, Except.bind]
  norm_num

/-- Reading back a run of bytes that was written as a run of bytes yields
exactly that run and leaves the remainder untouched. -/
theorem readBytes_map (l : List Nat) (rest : List StreamItem) :
    readBytes l.length (l.map StreamItem.b8 ++ rest) = .ok (l, rest) := by
  induction l with
  | nil => rfl
  | cons a t ih => simp [readBytes, ih, bind, Except.bind]

/-- A successful `readBytes` returns exactly as many bytes as requested. -/
theorem readBytes_length (k : Nat) (s : List StreamItem) (l : List Nat)
    (s2 : List StreamItem) (h : readBytes k s = .ok (l, s2)) : l.length = k := by
  induction k generalizing s l s2 with
  | zero =>
    simp [readBytes] at h
    simp [← h.1]
  | succ k ih =>
    match s with
    | [] => simp [readBytes] at h
    | .i64 v :: rest => simp [readBytes] at h
    | .pqBlob p :: rest => simp [readBytes] at h
    | .b8 v :: rest =>
      cases hr : readBytes k rest with
      | error e => simp [readBytes, hr, bind, Except.bind] at h
      | ok pr =>
        obtain ⟨vs, s3⟩ := pr
        simp [readBytes, hr, bind, Except.bind] at h
        rw [← h.1]
        simp [ih rest vs s3 hr]

/-- Inversion of a successful `Except` bind. -/
theorem bindE_ok {α β : Type} (o : Except Err α) (f : α → Except Err β) (b : β)
    (h : (o >>= f) = .ok b) : ∃ a, o = .ok a ∧ f a = .ok b := by
  cases o with
  | ok a => exact ⟨a, rfl, h⟩
  | error e => simp [bind, Except.bind] at h

/-- Round-trip for any well-formed state: the codes buffer has its declared
size and the norm block is consistent with the flag.  `load` applied to
`save`'s output followed by any remainder returns the identical state and
the untouched remainder. -/
theorem save_load_wf (x : QuantMatrix) (rest : List StreamItem)
    (hp : x.pq.isSome) (hc : x.codes.length = x.codesize)
    (hqt : x.qnorm = true → x.npq.isSome ∧ x.norm_codes.length = x.m)
    (hqf : x.qnorm = false → x.npq = none ∧ x.norm_codes = []) :
    ∃ s, x.save = .ok s ∧ QuantMatrix.load (s ++ rest) = .ok (x, rest) := by
  obtain ⟨xq, xm, xn, xcs, xcodes, xpq, xnc, xnpq⟩ := x
  simp only at hp hc hqt hqf
  obtain ⟨p, rfl⟩ := Option.isSome_iff_exists.mp hp
  cases xq with
  | false =>
    obtain ⟨hn1, hn2⟩ := hqf rfl
    subst hn1; subst hn2; subst hc
    refine ⟨StreamItem.b8 0 :: .i64 (xm : Int) :: .i64 (xn : Int) ::
      .i64 (xcodes.length : Int) :: (xcodes.map StreamItem.b8 ++ [StreamItem.pqBlob p]),
      ?_, ?_⟩
    · simp [QuantMatrix.save]
    · simp [QuantMatrix.load, readB8, readI64, readBlob, bind, Except.bind,
        List.cons_append, List.append_assoc, Int.toNat_ofNat, readBytes_map]
  | true =>
    obtain ⟨hn1, hn2⟩ := hqt rfl
    obtain ⟨np, rfl⟩ := Option.isSome_iff_exists.mp hn1
    subst hc; subst hn2
    refine ⟨StreamItem.b8 1 :: .i64 (xnc.length : Int) :: .i64 (xn : Int) ::
      .i64 (xcodes.length : Int) :: ((xcodes.map StreamItem.b8 ++ [StreamItem.pqBlob p]) ++
        (xnc.map StreamItem.b8 ++ [StreamItem.pqBlob np])), ?_, ?_⟩
    · simp [QuantMatrix.save]
    · simp [QuantMatrix.load, readB8, readI64, readBlob, bind, Except.bind,
        List.cons_append, List.append_assoc, Int.toNat_ofNat, readBytes_map]

/-- Every successful construction yields a well-formed state: a present main
quantizer, a codes buffer of the declared size, the declared size equal to
the source's sizing formula, and a norm block consistent with the flag. -/
theorem mk_wf (env : Env) (mat : DenseMatrix) (dsub : Int) (qnorm : Bool)
    (x : QuantMatrix) (h : mkQuantMatrix env mat dsub qnorm = .ok x) :
    x.pq.isSome ∧ x.codes.length = x.codesize ∧ x.m = mat.m ∧ x.n = mat.n ∧
    x.qnorm = qnorm ∧
    x.codesize = mat.m * ((mat.n + dsub.toNat - 1) / dsub.toNat) ∧
    (x.qnorm = true → x.npq.isSome ∧ x.norm_codes.length = x.m) ∧
    (x.qnorm = false → x.npq = none ∧ x.norm_codes = []) := by
  unfold mkQuantMatrix at h
  split_ifs at h with h1 h2
  all_goals simp only [Except.ok.injEq, reduceCtorEq] at h
  all_goals subst h
  all_goals simp_all [List.takeD_length]

/-- C4: for every constructed instance, loading the bytes produced by `save`
yields an instance identical in every field — same dimensions, code-buffer
size, codes bytes, norm-codes bytes, and the very same main and norm
quantizers, so their dot-product and accumulate behaviour is bit-identical
to the original's. -/
theorem save_load_roundtrip (env : Env) (mat : DenseMatrix) (dsub : Int) (qnorm : Bool)
    (x : QuantMatrix) (rest : List StreamItem)
    (h : mkQuantMatrix env mat dsub qnorm = .ok x) :
    ∃ s, x.save = .ok s ∧ QuantMatrix.load (s ++ rest) = .ok (x, rest) := by
  obtain ⟨hp, hc, -, -, -, -, hqt, hqf⟩ := mk_wf env mat dsub qnorm x h
  exact save_load_wf x rest hp hc hqt hqf

/-- Witness for C4 on the sample construction with norm quantization. -/
theorem save_load_roundtrip_witness :
    ∃ s, xN.save = .ok s ∧ QuantMatrix.load (s ++ []) = .ok (xN, []) :=
  save_load_roundtrip env0 mat0 2 true xN [] rfl

/-- C6: for every constructed instance and every successfully loaded
instance, the norm quantizer is present and the norm codes have length
`rowCount` exactly when norm quantization is on; with the flag off both are
absent. -/
theorem norm_flag_consistency :
    (∀ env mat dsub qnorm x, mkQuantMatrix env mat dsub qnorm = .ok x →
      (x.qnorm = true → x.npq.isSome ∧ x.norm_codes.length = x.m) ∧
      (x.qnorm = false → x.npq = none ∧ x.norm_codes = [])) ∧
    (∀ s y rest, QuantMatrix.load s = .ok (y, rest) →
      (y.qnorm = true → y.npq.isSome ∧ y.norm_codes.length = y.m) ∧
      (y.qnorm = false → y.npq = none ∧ y.norm_codes = [])) := by
  constructor
  · intro env mat dsub qnorm x h
    obtain ⟨-, -, -, -, -, -, hqt, hqf⟩ := mk_wf env mat dsub qnorm x h
    exact ⟨hqt, hqf⟩
  · intro s y rest h
    unfold QuantMatrix.load at h
    obtain ⟨⟨q, s1⟩, h1, h⟩ := bindE_ok _ _ _ h
    obtain ⟨⟨mv, s2⟩, h2, h⟩ := bindE_ok _ _ _ h
    obtain ⟨⟨nv, s3⟩, h3, h⟩ := bindE_ok _ _ _ h
    obtain ⟨⟨cv, s4⟩, h4, h⟩ := bindE_ok _ _ _ h
    obtain ⟨⟨codes, s5⟩, h5, h⟩ := bindE_ok _ _ _ h
    obtain ⟨⟨p, s6⟩, h6, h⟩ := bindE_ok _ _ _ h
    dsimp only at h
    cases hqb : q != 0 with
    | true =>
      simp only [hqb, if_true] at h
      obtain ⟨⟨nc, s7⟩, h7, h⟩ := bindE_ok _ _ _ h
      obtain ⟨⟨np, s8⟩, h8, h⟩ := bindE_ok _ _ _ h
      simp only [Except.ok.injEq, Prod.mk.injEq] at h
      obtain ⟨hy, -⟩ := h
      subst hy
      simp [readBytes_length _ _ _ _ h7]
    | false =>
      simp only [hqb, Bool.false_eq_true, if_false] at h
      simp only [Except.ok.injEq, Prod.mk.injEq] at h
      obtain ⟨hy, -⟩ := h
      subst hy
      simp

/-- Witness for C6 on the sample construction. -/
theorem norm_flag_consistency_witness :
    (xN.qnorm = true → xN.npq.isSome ∧ xN.norm_codes.length = xN.m) ∧
    (xN.qnorm = false → xN.npq = none ∧ xN.norm_codes = []) :=
  norm_flag_consistency.1 env0 mat0 2 true xN rfl

/-- C5: `save` writes exactly, in this fixed order: the flag byte, the three
64-bit sizes (`rowCount`, `colCount`, `codeBufferSize`), the
`codeBufferSize` raw codes bytes, the main quantizer's blob, and — only with
norm quantization on — the `rowCount` raw norm-codes bytes followed by the
norm quantizer's blob; nothing else. -/
theorem save_layout (x : QuantMatrix) (p np : ProductQuantizer)
    (hp : x.pq = some p) (hc : x.codesize ≤ x.codes.length) :
    (x.qnorm = false →
      x.save = .ok (StreamItem.b8 0 :: .i64 (x.m : Int) :: .i64 (x.n : Int) ::
        .i64 (x.codesize : Int) ::
        ((x.codes.take x.codesize).map StreamItem.b8 ++ [StreamItem.pqBlob p]))) ∧
    (x.qnorm = true → x.npq = some np → x.m ≤ x.norm_codes.length →
      x.save = .ok (StreamItem.b8 1 :: .i64 (x.m : Int) :: .i64 (x.n : Int) ::
        .i64 (x.codesize : Int) ::
        (((x.codes.take x.codesize).map StreamItem.b8 ++ [StreamItem.pqBlob p]) ++
          ((x.norm_codes.take x.m).map StreamItem.b8 ++ [StreamItem.pqBlob np])))) := by
  constructor
  · intro hq
    simp [QuantMatrix.save, hp, hc, hq]
  · intro hq hnp hm
    simp [QuantMatrix.save, hp, hc, hq, hnp, hm]

/-- Witness for C5 on the sample instance with norm quantization. -/
theorem save_layout_witness :
    (xN.qnorm = false →
      xN.save = .ok (StreamItem.b8 0 :: .i64 (xN.m : Int) :: .i64 (xN.n : Int) ::
        .i64 (xN.codesize : Int) ::
        ((xN.codes.take xN.codesize).map StreamItem.b8 ++ [StreamItem.pqBlob constPQ]))) ∧
    (xN.qnorm = true → xN.npq = some constPQ → xN.m ≤ xN.norm_codes.length →
      xN.save = .ok (StreamItem.b8 1 :: .i64 (xN.m : Int) :: .i64 (xN.n : Int) ::
        .i64 (xN.codesize : Int) ::
        (((xN.codes.take xN.codesize).map StreamItem.b8 ++ [StreamItem.pqBlob constPQ]) ++
          ((xN.norm_codes.take xN.m).map StreamItem.b8 ++ [StreamItem.pqBlob constPQ])))) :=
  save_layout xN constPQ constPQ rfl (by norm_num [xN])

/-- C2: for every construction with subvector size `d > 0`, the resulting
code-buffer size is `rowCount * ceil(colCount / d)`, the codes buffer
actually has that many codes, and any instance loaded back from this
instance's saved bytes has the same code-buffer size. -/
theorem codesize_formula (env : Env) (mat : DenseMatrix) (dsub : Int) (qnorm : Bool)
    (x : QuantMatrix) (h : mkQuantMatrix env mat dsub qnorm = .ok x) :
    x.codesize = mat.m * (mat.n ⌈/⌉ dsub.toNat) ∧ x.m = mat.m ∧ x.n = mat.n ∧
    x.codes.length = x.codesize ∧
    (∀ s rest y r2, x.save = .ok s → QuantMatrix.load (s ++ rest) = .ok (y, r2) →
      y.codesize = mat.m * (mat.n ⌈/⌉ dsub.toNat)) := by
  obtain ⟨hp, hc, hm, hn, -, hcs, hqt, hqf⟩ := mk_wf env mat dsub qnorm x h
  have hceil : mat.m * ((mat.n + dsub.toNat - 1) / dsub.toNat) =
      mat.m * (mat.n ⌈/⌉ dsub.toNat) := by
    rw [Nat.ceilDiv_eq_add_pred_div]
  refine ⟨hcs.trans hceil, hm, hn, hc, ?_⟩
  intro s rest y r2 hs hl
  obtain ⟨s2, hs2, hl2⟩ := save_load_wf x rest hp hc hqt hqf
  rw [hs] at hs2
  obtain rfl := Except.ok.inj hs2
  rw [hl] at hl2
  simp only [Except.ok.injEq, Prod.mk.injEq] at hl2
  rw [hl2.1]
  exact hcs.trans hceil

/-- Witness for C2 on the sample construction: `codesize = 2 * ceil(2/2)`. -/
theorem codesize_formula_witness :
    xN.codesize = mat0.m * (mat0.n ⌈/⌉ (2 : Int).toNat) ∧ xN.m = mat0.m ∧ xN.n = mat0.n ∧
    xN.codes.length = xN.codesize ∧
    (∀ s rest y r2, xN.save = .ok s → QuantMatrix.load (s ++ rest) = .ok (y, r2) →
      y.codesize = mat0.m * (mat0.n ⌈/⌉ (2 : Int).toNat)) :=
  codesize_formula env0 mat0 2 true xN rfl


/-- Spec-side (2, 4.1): the rows of the dense matrix, as lists. -/
def specRows (mat : DenseMatrix) : List (List ℚ) :=
  (List.range mat.m).map (fun i => (mat.data.drop (i * mat.n)).take mat.n)

/-- Spec-side (4.1): each row's Euclidean norm, as the spec words it — the
square root of the sum of the squares of the row's entries, one value per
row. -/
def specNorms (env : Env) (mat : DenseMatrix) : List ℚ :=
  (specRows mat).map (fun r => env.sqrt ((r.map (fun v => v * v)).sum))

/-- Spec-side (4.1): every row of the matrix divided element-wise by its own
norm, flattened back to row-major data. -/
def specNormalizedData (env : Env) (mat : DenseMatrix) : List ℚ :=
  (List.zipWith (fun r nv => r.map (fun v => v / nv)) (specRows mat) (specNorms env mat)).flatten

theorem foldl_add_eq {α : Type} (f : α → ℚ) (l : List α) (init : ℚ) :
    l.foldl (fun acc j => acc + f j) init = init + (l.map f).sum := by
  induction l generalizing init with
  | nil => simp
  | cons a t ih => simp [ih, add_assoc]

theorem getD_drop_take (l : List ℚ) (k n j : Nat) (hj : j < n) :
    ((l.drop k).take n).getD j 0 = l.getD (k + j) 0 := by
  simp [List.getD_eq_getElem?_getD, List.getElem?_take, List.getElem?_drop, hj]

theorem range_getD_sq_sum (c : List ℚ) (n : Nat) (h : c.length ≤ n) :
    ((List.range n).map (fun j => c.getD j 0 * c.getD j 0)).sum =
      (c.map (fun v => v * v)).sum := by
  induction c generalizing n with
  | nil =>
    simp [List.getD]
  | cons a t ih =>
    match n, h with
    | n + 1, h =>
      rw [List.range_succ_eq_map]
      simp only [List.map_cons, List.map_map, List.sum_cons, List.getD_cons_zero]
      have : (List.range n).map ((fun j => (a :: t).getD j 0 * (a :: t).getD j 0) ∘ Nat.succ) =
          (List.range n).map (fun j => t.getD j 0 * t.getD j 0) := by
        apply List.map_congr_left
        intro j hjr
        simp
      rw [this, ih n (Nat.le_of_succ_le_succ h)]

theorem l2NormRow_eq_specNorms (env : Env) (mat : DenseMatrix) :
    mat.l2NormRow env = specNorms env mat := by
  unfold DenseMatrix.l2NormRow specNorms specRows
  rw [List.map_map]
  apply List.map_congr_left
  intro i hi
  simp only [Function.comp]
  congr 1
  rw [foldl_add_eq, zero_add]
  have hlen : ((mat.data.drop (i * mat.n)).take mat.n).length ≤ mat.n := by
    simp [List.length_take]
  rw [← range_getD_sq_sum _ _ hlen]
  apply congrArg List.sum
  apply List.map_congr_left
  intro j hj
  rw [getD_drop_take _ _ _ _ (List.mem_range.mp hj)]

theorem zipWith_map_range {α β : Type} (f : α → ℚ → β) (g : Nat → α) (ds : List ℚ)
    (m : Nat) (h : ds.length = m) :
    List.zipWith f ((List.range m).map g) ds =
      (List.range m).map (fun i => f (g i) (ds.getD i 0)) := by
  induction m generalizing ds g with
  | zero => simp
  | succ m ih =>
    match ds, h with
    | d :: t, h =>
      rw [List.range_succ_eq_map]
      simp only [List.map_cons, List.map_map, List.zipWith_cons_cons, List.getD_cons_zero]
      congr 1
      rw [ih (g ∘ Nat.succ) t (Nat.succ_injective h)]
      apply List.map_congr_left
      intro j hj
      simp [Function.comp]

theorem divideRow_eq_spec (env : Env) (mat : DenseMatrix) :
    (mat.divideRow (mat.l2NormRow env)).data = specNormalizedData env mat := by
  unfold DenseMatrix.divideRow specNormalizedData
  rw [l2NormRow_eq_specNorms]
  have hlen : (specNorms env mat).length = mat.m := by
    simp [specNorms, specRows]
  rw [specRows, zipWith_map_range _ _ _ _ hlen]


/-- C3: construction follows exactly the spec's steps.  With norm
quantization on: each row's Euclidean norm is computed (one per row), every
row is divided by its own norm, the norm quantizer is trained on the norm
vector and encodes it into `normCodes` (one code per row); the main
quantizer is then trained on the norm-normalized row data and every row is
encoded into `codes`.  With it off, the main quantizer is trained on the
unmodified data. -/
theorem quantize_steps (env : Env) (mat : DenseMatrix) (dsub : Int) :
    (∀ x, mkQuantMatrix env mat dsub true = .ok x →
      x.npq = some (env.trainPQ (env.freshPQ 1 1) mat.m (specNorms env mat)) ∧
      x.norm_codes = List.takeD mat.m
        ((env.trainPQ (env.freshPQ 1 1) mat.m (specNorms env mat)).compute_codes
          (specNorms env mat) mat.m) 0 ∧
      x.norm_codes.length = mat.m ∧
      x.pq = some (env.trainPQ (env.freshPQ mat.n dsub) mat.m (specNormalizedData env mat)) ∧
      x.codes = List.takeD x.codesize
        ((env.trainPQ (env.freshPQ mat.n dsub) mat.m
          (specNormalizedData env mat)).compute_codes (specNormalizedData env mat) mat.m) 0) ∧
    (∀ y, mkQuantMatrix env mat dsub false = .ok y →
      y.npq = none ∧ y.norm_codes = [] ∧
      y.pq = some (env.trainPQ (env.freshPQ mat.n dsub) mat.m mat.data) ∧
      y.codes = List.takeD y.codesize
        ((env.trainPQ (env.freshPQ mat.n dsub) mat.m mat.data).compute_codes mat.data mat.m) 0) := by
  constructor
  · intro x h
    unfold mkQuantMatrix at h
    split_ifs at h with h1 h2
    all_goals try simp only [reduceCtorEq] at h
    all_goals try exact absurd rfl h2
    simp only [Except.ok.injEq] at h
    subst h
    simp only [divideRow_eq_spec]
    simp only [l2NormRow_eq_specNorms]
    simp [List.takeD_length]
  · intro y h
    unfold mkQuantMatrix at h
    split_ifs at h with h1 h2
    all_goals try simp only [reduceCtorEq] at h
    all_goals try exact h2.elim
    simp only [Except.ok.injEq] at h
    subst h
    simp

/-- Witness for C3 on the sample construction with norm quantization. -/
theorem quantize_steps_witness :
    xN.npq = some (env0.trainPQ (env0.freshPQ 1 1) mat0.m (specNorms env0 mat0)) ∧
    xN.norm_codes = List.takeD mat0.m
      ((env0.trainPQ (env0.freshPQ 1 1) mat0.m (specNorms env0 mat0)).compute_codes
        (specNorms env0 mat0) mat0.m) 0 ∧
    xN.norm_codes.length = mat0.m ∧
    xN.pq = some (env0.trainPQ (env0.freshPQ mat0.n 2) mat0.m (specNormalizedData env0 mat0)) ∧
    xN.codes = List.takeD xN.codesize
      ((env0.trainPQ (env0.freshPQ mat0.n 2) mat0.m
        (specNormalizedData env0 mat0)).compute_codes (specNormalizedData env0 mat0) mat0.m) 0 :=
  (quantize_steps env0 mat0 2).1 xN rfl

end QuantVerify
